import Mathlib

/-!
Verification of the Trajectory-to-Network Attribution and Matching-Quality
Engine (task5_route_analysis.py and task6.py), via a shallow embedding of
the relevant functions over exact rationals.

Conventions of the embedding:
* Python floats are modelled as exact rationals (ℚ); `round(x, n)` is
  modelled as exact banker's rounding on ℚ.
* Python dictionaries with `.get(k, default)` access are modelled as total
  functions (for accumulators, default 0) or `Option`-valued functions
  (for lookup tables).
* Calls into external geometry libraries (shapely `nearest_points`,
  `distance`, `length`, `wkt.loads`) are modelled as explicit oracle
  parameters, with a concrete executable model of `wkt.loads` restricted
  to the LINESTRING grammar for evaluating concrete examples.
* A Python value that may be a non-string (missing field) is modelled as
  `Option String`.
-/

unseal Rat.add Rat.mul Rat.sub Rat.inv Rat.ofScientific

namespace Task5

/-! ### Path Decoder: `parse_edge_seq` (task5_route_analysis.py lines 16-21)

Source:
```
def parse_edge_seq(s: str):
    if not isinstance(s, str) or not s.strip():
        return []
    return [int(x) for x in re.findall(r"-?\d+", s)]
```
The regex `-?\d+` matched left-to-right with `findall` extracts every
maximal run of digits, optionally preceded by a minus sign, scanning
resumes right after the end of each match.  `scan` below implements
exactly this semantics on the character list. -/

/-- Maximal digit run at the head of the list (the `\d+` greedy match). -/
def takeDigits (l : List Char) : List Char := l.takeWhile Char.isDigit

/-- Rest of the list after the maximal head digit run. -/
def dropDigits (l : List Char) : List Char := l.dropWhile Char.isDigit

lemma length_dropWhile_le (p : Char → Bool) (l : List Char) :
    (l.dropWhile p).length ≤ l.length := by
  induction l with
  | nil => simp [List.dropWhile]
  | cons c cs ih =>
    by_cases h : p c
    · rw [List.dropWhile_cons_of_pos h]
      exact le_trans ih (by simp)
    · simp [List.dropWhile_cons_of_neg h]

/-- Decimal value of a digit run, as computed by Python `int` on a digit
string. -/
def digitsToNat (ds : List Char) : ℕ :=
  ds.foldl (fun a c => 10 * a + (c.toNat - 48)) 0

/-- Left-to-right scan implementing `re.findall(r"-?\d+", s)` followed by
`int` conversion: at each position, match a signed maximal digit run if
possible, otherwise advance one character; scanning resumes after the end
of each match. -/
def scan (l : List Char) : List ℤ :=
  match l with
  | [] => []
  | c :: cs =>
    if c.isDigit then
      (digitsToNat (c :: takeDigits cs) : ℤ) :: scan (dropDigits cs)
    else if c = '-' then
      match cs with
      | [] => []
      | c2 :: cs2 =>
        if c2.isDigit then
          -(digitsToNat (c2 :: takeDigits cs2) : ℤ) :: scan (dropDigits cs2)
        else scan (c2 :: cs2)
    else scan cs
termination_by l.length
decreasing_by
  all_goals simp only [dropDigits, List.length_cons]
  all_goals first
    | exact Nat.lt_succ_of_le (length_dropWhile_le _ _)
    | exact Nat.lt_of_le_of_lt (length_dropWhile_le _ _) (by omega)
    | omega

/-- Strip of leading and trailing characters satisfying `p` (Python
`str.strip`). -/
def stripBy (p : Char → Bool) (l : List Char) : List Char :=
  ((l.dropWhile p).reverse.dropWhile p).reverse

/-- The decoder `parse_edge_seq`: decode a matched-path text field into the ordered
sequence of edge ids.  `none` models a non-string field. -/
def parse_edge_seq (s : Option String) : List ℤ :=
  match s with
  | none => []
  | some s =>
    if (stripBy Char.isWhitespace s.data).isEmpty then []
    else scan s.data

/-! ### Characterization machinery for the decoder

`digitChar`/`natToDigits` render a natural number in decimal; they are used
only to *state* the separator-tolerance property of `scan` (any numbers
joined by digit-free, minus-free separators decode back to themselves). -/

/-- The decimal digit character for `d` (`d ≥ 9` clamps to `'9'`; only used
with `d < 10`). -/
def digitChar (d : ℕ) : Char :=
  match d with
  | 0 => '0' | 1 => '1' | 2 => '2' | 3 => '3' | 4 => '4'
  | 5 => '5' | 6 => '6' | 7 => '7' | 8 => '8' | _ => '9'

lemma digitChar_isDigit (d : ℕ) : (digitChar d).isDigit = true := by
  unfold digitChar
  split <;> decide

lemma digitChar_toNat (d : ℕ) (h : d < 10) : (digitChar d).toNat = 48 + d := by
  interval_cases d <;> decide

/-- Decimal rendering of a natural number, most significant digit first. -/
def natToDigits (n : ℕ) : List Char :=
  if n < 10 then [digitChar n]
  else natToDigits (n / 10) ++ [digitChar (n % 10)]
termination_by n
decreasing_by exact Nat.div_lt_self (by omega) (by omega)

lemma natToDigits_ne_nil (n : ℕ) : natToDigits n ≠ [] := by
  rw [natToDigits]
  split <;> simp

lemma natToDigits_all_digit (n : ℕ) : ∀ c ∈ natToDigits n, c.isDigit = true := by
  induction n using Nat.strong_induction_on with
  | _ n ih =>
    rw [natToDigits]
    split
    · intro c hc
      simp only [List.mem_singleton] at hc
      simp [hc, digitChar_isDigit]
    · intro c hc
      rw [List.mem_append] at hc
      rcases hc with hc | hc
      · exact ih (n / 10) (Nat.div_lt_self (by omega) (by omega)) c hc
      · simp only [List.mem_singleton] at hc
        simp [hc, digitChar_isDigit]

lemma digitsToNat_append_digit (ds : List Char) (c : Char) :
    digitsToNat (ds ++ [c]) = 10 * digitsToNat ds + (c.toNat - 48) := by
  simp [digitsToNat, List.foldl_append]

lemma digitsToNat_natToDigits (n : ℕ) : digitsToNat (natToDigits n) = n := by
  induction n using Nat.strong_induction_on with
  | _ n ih =>
    rw [natToDigits]
    split
    · rename_i h
      simp [digitsToNat, digitChar_toNat n h]
    · rename_i h
      rw [digitsToNat_append_digit, ih (n / 10) (Nat.div_lt_self (by omega) (by omega)),
        digitChar_toNat (n % 10) (Nat.mod_lt _ (by omega))]
      omega

/-- A character is *inert* for the scanner when it is neither a digit nor a
minus sign: the scanner skips it without starting a match. -/
def Inert (c : Char) : Prop := c.isDigit = false ∧ c ≠ '-'

lemma takeWhile_dropWhile_append (p : Char → Bool) (ds rest : List Char)
    (h : ∀ c ∈ ds, p c = true)
    (hr : ∀ c, rest.head? = some c → p c = false) :
    (ds ++ rest).takeWhile p = ds ∧ (ds ++ rest).dropWhile p = rest := by
  induction ds with
  | nil =>
    simp only [List.nil_append]
    cases rest with
    | nil => simp
    | cons r rs =>
      have := hr r rfl
      simp [List.takeWhile_cons, List.dropWhile_cons, this]
  | cons d ds' ihds =>
    have hd := h d (by simp)
    have ih := ihds (fun c hc => h c (by simp [hc]))
    simp [List.takeWhile_cons, List.dropWhile_cons, hd, ih.1, ih.2]

/-- Scanning past an inert prefix leaves the result unchanged. -/
lemma scan_inert_append (pre l : List Char) (h : ∀ c ∈ pre, Inert c) :
    scan (pre ++ l) = scan l := by
  induction pre with
  | nil => simp
  | cons c pre' ih =>
    have hc := h c (by simp)
    rw [List.cons_append, scan.eq_def]
    simp only [hc.1, Bool.false_eq_true, if_false, hc.2, ite_false]
    exact ih (fun c hc => h c (by simp [hc]))

lemma scan_nil : scan [] = [] := by rw [scan.eq_def]

lemma scan_inert (pre : List Char) (h : ∀ c ∈ pre, Inert c) : scan pre = [] := by
  have := scan_inert_append pre [] h
  rw [List.append_nil] at this
  rw [this, scan_nil]

/-- Scanning a maximal digit run emits its decimal value and resumes after
it. -/
lemma scan_digits_append (ds rest : List Char) (hne : ds ≠ [])
    (hds : ∀ c ∈ ds, c.isDigit = true)
    (hr : ∀ c, rest.head? = some c → c.isDigit = false) :
    scan (ds ++ rest) = (digitsToNat ds : ℤ) :: scan rest := by
  cases ds with
  | nil => exact absurd rfl hne
  | cons d ds' =>
    have hd := hds d (by simp)
    have hrun := takeWhile_dropWhile_append Char.isDigit ds' rest
      (fun c hc => hds c (by simp [hc])) hr
    rw [List.cons_append, scan.eq_def]
    simp [hd, takeDigits, dropDigits, hrun.1, hrun.2]

/-- Tail of a rendered number list: `sep` before each subsequent number. -/
def renderTail (sep : List Char) : List ℕ → List Char
  | [] => []
  | n :: ns => sep ++ natToDigits n ++ renderTail sep ns

/-- A number list rendered with an arbitrary textual convention: leading
text `lead`, separator `sep` between numbers, trailing text `trail`. -/
def render (lead sep trail : List Char) (ns : List ℕ) : List Char :=
  match ns with
  | [] => lead ++ trail
  | n :: ns => lead ++ (natToDigits n ++ (renderTail sep ns ++ trail))

lemma digit_not_inert {c : Char} (h : c.isDigit = true) : ¬Inert c := by
  intro hi
  rw [hi.1] at h
  exact Bool.false_ne_true h

lemma head_renderTail_not_digit (sep trail : List Char) (ns : List ℕ)
    (hsep : ∀ c ∈ sep, Inert c) (hsepne : sep ≠ [])
    (htrail : ∀ c ∈ trail, Inert c) :
    ∀ c, (renderTail sep ns ++ trail).head? = some c → c.isDigit = false := by
  intro c hc
  cases ns with
  | nil =>
    rw [renderTail, List.nil_append] at hc
    cases trail with
    | nil => simp at hc
    | cons t ts =>
      simp only [List.head?_cons, Option.some_inj] at hc
      subst hc
      exact (htrail t (by simp)).1
  | cons m ms =>
    rw [renderTail] at hc
    cases sep with
    | nil => exact absurd rfl hsepne
    | cons s ss =>
      simp only [List.cons_append, List.head?_cons, Option.some_inj] at hc
      subst hc
      exact (hsep s (by simp)).1

lemma scan_renderTail (sep trail : List Char) (ns : List ℕ)
    (hsep : ∀ c ∈ sep, Inert c) (hsepne : sep ≠ [])
    (htrail : ∀ c ∈ trail, Inert c) :
    scan (renderTail sep ns ++ trail) = ns.map (fun n => (n : ℤ)) := by
  induction ns with
  | nil =>
    rw [renderTail, List.nil_append]
    simp [scan_inert trail htrail]
  | cons n ns ih =>
    rw [renderTail, List.append_assoc, List.append_assoc,
      scan_inert_append sep _ hsep,
      scan_digits_append (natToDigits n) _ (natToDigits_ne_nil n)
        (natToDigits_all_digit n)
        (head_renderTail_not_digit sep trail ns hsep hsepne htrail),
      digitsToNat_natToDigits, ih]
    simp

/-- Separator tolerance of the scanner: numbers rendered with any digit-free,
minus-free lead/separator/trail decode back to exactly the same ordered list
(duplicates and order preserved, nothing skipped). -/
theorem scan_render (lead sep trail : List Char) (ns : List ℕ)
    (hlead : ∀ c ∈ lead, Inert c)
    (hsep : ∀ c ∈ sep, Inert c) (hsepne : sep ≠ [])
    (htrail : ∀ c ∈ trail, Inert c) :
    scan (render lead sep trail ns) = ns.map (fun n => (n : ℤ)) := by
  cases ns with
  | nil =>
    rw [render]
    refine scan_inert _ ?_
    intro c hc
    rcases List.mem_append.mp hc with hc | hc
    · exact hlead c hc
    · exact htrail c hc
  | cons n ns =>
    rw [render, scan_inert_append lead _ hlead,
      scan_digits_append (natToDigits n) _ (natToDigits_ne_nil n)
        (natToDigits_all_digit n)
        (head_renderTail_not_digit sep trail ns hsep hsepne htrail),
      digitsToNat_natToDigits, scan_renderTail sep trail ns hsep hsepne htrail]
    simp

/-! ### Attribution Engine: the accumulation loop of `main`
(task5_route_analysis.py lines 95-117)

Source:
```
for _, r in mm.iterrows():
    path_edges = parse_edge_seq(str(r[use_field]))
    if not path_edges:
        continue
    for e in path_edges:
        freq[e] = freq.get(e, 0) + 1
    rid = int(r["id"]) if "id" in mm.columns and pd.notna(r["id"]) else None
    total_time = id2time.get(rid, None)
    if total_time is None:
        continue
    lengths = [id2len.get(e, 0.0) for e in path_edges]
    total_len = sum(lengths)
    if total_len <= 0:
        continue
    for e, l in zip(path_edges, lengths):
        if l <= 0:
            continue
        dt = total_time * (l / total_len)
        time_sum[e] = time_sum.get(e, 0.0) + dt
        time_count[e] = time_count.get(e, 0) + 1
```
The dictionaries `freq`, `time_sum`, `time_count` are modelled as total
functions with default 0; the Network Index `id2len` as an Option-valued
function (dict lookup with `.get(e, 0.0)`), and `id2time` likewise
(`.get(rid, None)`). -/

/-- Accumulated `EdgeStat` state: the three dictionaries of the loop. -/
structure Stats where
  freq : ℤ → ℕ
  time_sum : ℤ → ℚ
  time_count : ℤ → ℕ

/-- The empty accumulators (`freq = {}`, `time_sum = {}`, `time_count = {}`). -/
def initStats : Stats := ⟨fun _ => 0, fun _ => 0, fun _ => 0⟩

/-- One matched-output row: optional trip id (the `id` column, absent or
NaN modelled as `none`) and the `cpath`/`opath` text field. -/
structure Row where
  rid : Option ℤ
  field : String

/-- The frequency inner loop: one increment per occurrence. -/
def addFreq (f : ℤ → ℕ) (path : List ℤ) : ℤ → ℕ :=
  path.foldl (fun f e => fun x => if x = e then f x + 1 else f x) f

/-- The looked-up edge lengths `[id2len.get(e, 0.0) for e in path_edges]`:
missing ids yield the sentinel length 0. -/
def lengthsOf (id2len : ℤ → Option ℚ) (path : List ℤ) : List ℚ :=
  path.map (fun e => (id2len e).getD 0)

/-- The time-allocation inner loop over `zip(path_edges, lengths)`. -/
def allocate (T total : ℚ) :
    List (ℤ × ℚ) → (ℤ → ℚ) → (ℤ → ℕ) → (ℤ → ℚ) × (ℤ → ℕ)
  | [], ts, tc => (ts, tc)
  | (e, l) :: rest, ts, tc =>
    if l ≤ 0 then allocate T total rest ts tc
    else
      allocate T total rest
        (fun x => if x = e then ts x + T * (l / total) else ts x)
        (fun x => if x = e then tc x + 1 else tc x)

/-- One iteration of the accumulation loop for one matched row. -/
def processTrip (id2len : ℤ → Option ℚ) (id2time : ℤ → Option ℚ)
    (st : Stats) (r : Row) : Stats :=
  let path_edges := parse_edge_seq (some r.field)
  if path_edges = [] then st
  else
    let freq' := addFreq st.freq path_edges
    match r.rid.bind id2time with
    | none => { st with freq := freq' }
    | some total_time =>
      let lengths := lengthsOf id2len path_edges
      let total_len := lengths.sum
      if total_len ≤ 0 then { st with freq := freq' }
      else
        let p := allocate total_time total_len
          (path_edges.zip lengths) st.time_sum st.time_count
        ⟨freq', p.1, p.2⟩

/-- The whole accumulation loop over all matched rows. -/
def runTrips (id2len : ℤ → Option ℚ) (id2time : ℤ → Option ℚ)
    (rows : List Row) : Stats :=
  rows.foldl (processTrip id2len id2time) initStats

/-- The time increment that the allocation loop adds to `time_sum[x]`:
one `dt = T * (l / total)` term per occurrence of `x` with positive
length. -/
def attributedTo (T total : ℚ) : List (ℤ × ℚ) → ℤ → ℚ
  | [], _ => 0
  | (e, l) :: rest, x =>
    (if x = e ∧ 0 < l then T * (l / total) else 0) + attributedTo T total rest x

/-- The increment that the allocation loop adds to `time_count[x]`. -/
def addedCount : List (ℤ × ℚ) → ℤ → ℕ
  | [], _ => 0
  | (e, l) :: rest, x =>
    (if x = e ∧ 0 < l then 1 else 0) + addedCount rest x

lemma allocate_fst (T total : ℚ) (pairs : List (ℤ × ℚ)) :
    ∀ ts tc x, (allocate T total pairs ts tc).1 x = ts x + attributedTo T total pairs x := by
  induction pairs with
  | nil => intro ts tc x; simp [allocate, attributedTo]
  | cons p rest ih =>
    intro ts tc x
    obtain ⟨e, l⟩ := p
    by_cases hl : l ≤ 0
    · rw [allocate, if_pos hl, ih, attributedTo, if_neg (by intro h; exact absurd h.2 (not_lt.mpr hl))]
      ring
    · rw [allocate, if_neg hl, ih, attributedTo]
      by_cases hx : x = e
      · rw [if_pos hx, if_pos ⟨hx, not_le.mp hl⟩]; ring
      · rw [if_neg hx, if_neg (by intro h; exact hx h.1)]; ring

lemma allocate_snd (T total : ℚ) (pairs : List (ℤ × ℚ)) :
    ∀ ts tc x, (allocate T total pairs ts tc).2 x = tc x + addedCount pairs x := by
  induction pairs with
  | nil => intro ts tc x; simp [allocate, addedCount]
  | cons p rest ih =>
    intro ts tc x
    obtain ⟨e, l⟩ := p
    by_cases hl : l ≤ 0
    · rw [allocate, if_pos hl, ih, addedCount, if_neg (by intro h; exact absurd h.2 (not_lt.mpr hl))]
      omega
    · rw [allocate, if_neg hl, ih, addedCount]
      by_cases hx : x = e
      · rw [if_pos hx, if_pos ⟨hx, not_le.mp hl⟩]; omega
      · rw [if_neg hx, if_neg (by intro h; exact hx h.1)]; omega

lemma addFreq_apply (path : List ℤ) : ∀ (f : ℤ → ℕ) (x : ℤ),
    addFreq f path x = f x + path.count x := by
  induction path with
  | nil => intro f x; simp [addFreq]
  | cons e rest ih =>
    intro f x
    rw [addFreq, List.foldl_cons]
    have := ih (fun y => if y = e then f y + 1 else f y) x
    rw [addFreq] at this
    rw [this, List.count_cons]
    by_cases hx : x = e
    · simp [hx]
      clear this ih
      omega
    · simp only [if_neg hx, beq_iff_eq, if_neg (Ne.symm hx)]
      clear this ih
      omega

lemma processTrip_freq (id2len id2time : ℤ → Option ℚ) (st : Stats) (r : Row)
    (x : ℤ) :
    (processTrip id2len id2time st r).freq x =
      st.freq x + (parse_edge_seq (some r.field)).count x := by
  unfold processTrip
  by_cases he : parse_edge_seq (some r.field) = []
  · simp [he]
  · simp only [if_neg he]
    cases hrt : (r.rid.bind id2time) with
    | none => simp [addFreq_apply]
    | some T =>
      by_cases hl : (lengthsOf id2len (parse_edge_seq (some r.field))).sum ≤ 0
      · simp [hl, addFreq_apply]
      · simp [hl, addFreq_apply]

lemma sum_attributedTo (T total : ℚ) (pairs : List (ℤ × ℚ)) (S : Finset ℤ)
    (hS : ∀ p ∈ pairs, p.1 ∈ S) :
    ∑ x ∈ S, attributedTo T total pairs x
      = (pairs.map (fun p => if 0 < p.2 then T * (p.2 / total) else 0)).sum := by
  induction pairs with
  | nil => simp [attributedTo]
  | cons p rest ih =>
    obtain ⟨e, l⟩ := p
    have he : e ∈ S := hS (e, l) (by simp)
    have step : ∑ x ∈ S, attributedTo T total ((e, l) :: rest) x
        = (∑ x ∈ S, if x = e ∧ 0 < l then T * (l / total) else 0)
          + ∑ x ∈ S, attributedTo T total rest x := by
      rw [← Finset.sum_add_distrib]
      rfl
    rw [step, ih (fun q hq => hS q (by simp [hq])), List.map_cons, List.sum_cons]
    congr 1
    by_cases h0 : 0 < l
    · have hrw : ∀ x ∈ S, (if x = e ∧ 0 < l then T * (l / total) else 0)
          = if x = e then T * (l / total) else 0 := by
        intro x _
        by_cases hx : x = e <;> simp [hx, h0]
      rw [Finset.sum_congr rfl hrw, Finset.sum_ite_eq' S e (fun _ => T * (l / total)),
        if_pos he, if_pos h0]
    · simp [h0]

lemma zip_self_map (path : List ℤ) (f : ℤ → ℚ) :
    path.zip (path.map f) = path.map (fun e => (e, f e)) := by
  have h : path.zip (path.map f) = (path.map id).zip (path.map f) := by
    rw [List.map_id]
  rw [h, List.zip_map']
  simp

lemma sum_pos_part (T total : ℚ) (ls : List ℚ) (h : ∀ l ∈ ls, 0 ≤ l) :
    (ls.map (fun l => if 0 < l then T * (l / total) else 0)).sum
      = T * ls.sum / total := by
  induction ls with
  | nil => simp
  | cons l ls ih =>
    rw [List.map_cons, List.sum_cons, List.sum_cons,
      ih (fun x hx => h x (by simp [hx]))]
    by_cases h0 : 0 < l
    · rw [if_pos h0, ← mul_div_assoc, div_add_div_same, ← mul_add]
    · have hl0 : l = 0 := le_antisymm (not_lt.mp h0) (h l (by simp))
      rw [if_neg h0, hl0]
      simp

lemma processTrip_time_sum (id2len id2time : ℤ → Option ℚ) (st : Stats) (r : Row)
    (T : ℚ) (hT : r.rid.bind id2time = some T)
    (hpos : 0 < (lengthsOf id2len (parse_edge_seq (some r.field))).sum) (x : ℤ) :
    (processTrip id2len id2time st r).time_sum x
      = st.time_sum x
        + attributedTo T (lengthsOf id2len (parse_edge_seq (some r.field))).sum
            ((parse_edge_seq (some r.field)).zip
              (lengthsOf id2len (parse_edge_seq (some r.field)))) x := by
  have hne : parse_edge_seq (some r.field) ≠ [] := by
    intro h
    rw [h] at hpos
    simp [lengthsOf] at hpos
  unfold processTrip
  simp only [if_neg hne, hT, if_neg (not_le.mpr hpos)]
  exact allocate_fst _ _ _ _ _ _

lemma processTrip_time_count (id2len id2time : ℤ → Option ℚ) (st : Stats) (r : Row)
    (T : ℚ) (hT : r.rid.bind id2time = some T)
    (hpos : 0 < (lengthsOf id2len (parse_edge_seq (some r.field))).sum) (x : ℤ) :
    (processTrip id2len id2time st r).time_count x
      = st.time_count x
        + addedCount
            ((parse_edge_seq (some r.field)).zip
              (lengthsOf id2len (parse_edge_seq (some r.field)))) x := by
  have hne : parse_edge_seq (some r.field) ≠ [] := by
    intro h
    rw [h] at hpos
    simp [lengthsOf] at hpos
  unfold processTrip
  simp only [if_neg hne, hT, if_neg (not_le.mpr hpos)]
  exact allocate_snd _ _ _ _ _ _

lemma trip_attribution_sum (id2len id2time : ℤ → Option ℚ) (st : Stats) (r : Row)
    (T : ℚ) (hT : r.rid.bind id2time = some T)
    (hnn : ∀ l ∈ lengthsOf id2len (parse_edge_seq (some r.field)), 0 ≤ l)
    (hpos : 0 < (lengthsOf id2len (parse_edge_seq (some r.field))).sum) :
    ∑ x ∈ (parse_edge_seq (some r.field)).toFinset,
      ((processTrip id2len id2time st r).time_sum x - st.time_sum x) = T := by
  have hdelta : ∀ x ∈ (parse_edge_seq (some r.field)).toFinset,
      (processTrip id2len id2time st r).time_sum x - st.time_sum x
        = attributedTo T (lengthsOf id2len (parse_edge_seq (some r.field))).sum
            ((parse_edge_seq (some r.field)).zip
              (lengthsOf id2len (parse_edge_seq (some r.field)))) x := by
    intro x _
    rw [processTrip_time_sum id2len id2time st r T hT hpos x]
    ring
  rw [Finset.sum_congr rfl hdelta,
    sum_attributedTo _ _ _ _
      (fun p hp => List.mem_toFinset.mpr (List.of_mem_zip hp).1)]
  simp only [lengthsOf] at hnn hpos ⊢
  rw [zip_self_map, List.map_map]
  have hcomp :
      ((fun p : ℤ × ℚ =>
          if 0 < p.2 then
            T * (p.2 / (List.map (fun e => (id2len e).getD 0) (parse_edge_seq (some r.field))).sum)
          else 0)
        ∘ fun e => (e, (id2len e).getD 0))
      = (fun l : ℚ =>
          if 0 < l then
            T * (l / (List.map (fun e => (id2len e).getD 0) (parse_edge_seq (some r.field))).sum)
          else 0)
        ∘ fun e => (id2len e).getD 0 := rfl
  rw [hcomp, ← List.map_map, sum_pos_part _ _ _ hnn,
    mul_div_assoc, div_self (ne_of_gt hpos), mul_one]

lemma foldl_processTrip_freq (id2len id2time : ℤ → Option ℚ) (rows : List Row)
    (x : ℤ) : ∀ st : Stats,
    (rows.foldl (processTrip id2len id2time) st).freq x
      = st.freq x + (rows.map (fun r => (parse_edge_seq (some r.field)).count x)).sum := by
  induction rows with
  | nil => intro st; simp
  | cons r rest ih =>
    intro st
    rw [List.foldl_cons, ih (processTrip id2len id2time st r),
      processTrip_freq, List.map_cons, List.sum_cons]
    omega

lemma attributedTo_of_nonpos (T total : ℚ) (pairs : List (ℤ × ℚ)) (e : ℤ)
    (h : ∀ p ∈ pairs, p.1 = e → ¬0 < p.2) :
    attributedTo T total pairs e = 0 := by
  induction pairs with
  | nil => rfl
  | cons p rest ih =>
    obtain ⟨a, l⟩ := p
    rw [attributedTo, ih (fun q hq => h q (by simp [hq])),
      if_neg (by rintro ⟨h1, h2⟩; exact h (a, l) (by simp) h1.symm h2)]
    ring

lemma addedCount_of_nonpos (pairs : List (ℤ × ℚ)) (e : ℤ)
    (h : ∀ p ∈ pairs, p.1 = e → ¬0 < p.2) :
    addedCount pairs e = 0 := by
  induction pairs with
  | nil => rfl
  | cons p rest ih =>
    obtain ⟨a, l⟩ := p
    rw [addedCount, ih (fun q hq => h q (by simp [hq])),
      if_neg (by rintro ⟨h1, h2⟩; exact h (a, l) (by simp) h1.symm h2)]

/-- A trip's pairs `(e, l)` always carry the length looked up for `e`. -/
lemma mem_zip_lengthsOf (id2len : ℤ → Option ℚ) (path : List ℤ)
    (p : ℤ × ℚ) (hp : p ∈ path.zip (lengthsOf id2len path)) :
    p.2 = (id2len p.1).getD 0 := by
  rw [lengthsOf, zip_self_map] at hp
  obtain ⟨a, _, ha⟩ := List.mem_map.mp hp
  rw [← ha]

lemma processTrip_missing_time (id2len id2time : ℤ → Option ℚ) (st : Stats)
    (r : Row) (e : ℤ) (he : id2len e = none) :
    (processTrip id2len id2time st r).time_sum e = st.time_sum e
      ∧ (processTrip id2len id2time st r).time_count e = st.time_count e := by
  have hzero : ∀ p ∈ (parse_edge_seq (some r.field)).zip
      (lengthsOf id2len (parse_edge_seq (some r.field))), p.1 = e → ¬0 < p.2 := by
    intro p hp h1
    rw [mem_zip_lengthsOf id2len _ p hp, h1, he]
    simp
  unfold processTrip
  by_cases hpe : parse_edge_seq (some r.field) = []
  · simp [hpe]
  · simp only [if_neg hpe]
    cases hrt : (r.rid.bind id2time) with
    | none => simp
    | some T =>
      by_cases hl : (lengthsOf id2len (parse_edge_seq (some r.field))).sum ≤ 0
      · simp [hl]
      · simp only [if_neg hl]
        constructor
        · rw [allocate_fst, attributedTo_of_nonpos _ _ _ _ hzero]
          ring
        · rw [allocate_snd, addedCount_of_nonpos _ _ hzero]
          omega

/-! ### Ranking (task5_route_analysis.py lines 119-125)

Source:
```
freq_df = (pd.DataFrame([{"id": e, "freq": c} for e, c in freq.items()])
           .sort_values("freq", ascending=False).head(args.topk))
avg_df = (pd.DataFrame([{"id": e, "avg_time_s": time_sum[e] / time_count[e]}
                        for e in time_sum if time_count.get(e, 0) > 0])
          .sort_values("avg_time_s", ascending=False).head(args.topk))
```
`sort_values` is called with the metric column as the *only* key (no
secondary key on `id`).  pandas implements a descending sort in
`pandas.core.sorting.nargsort` by reversing the value and index arrays,
running the ascending argsort (stable here: numpy runs its insertion
sort below the introsort cutoff), and reversing the resulting indexer
back (`indexer[::-1]`); the two reversals cancel on equal keys, so rows
with equal metric keep their original order.  The net effect modelled
here: reverse, stable ascending sort by the metric, reverse back, take
`k` — a stable descending sort.  The table rows are in dictionary
insertion order (first-occurrence order of the edge ids). -/

end Task5

namespace Task6

/-! ### Rounding

Python's built-in `round(x, n)` rounds half to even.  Modelled exactly on
ℚ (the source operates on binary floats; the claims under verification do
not depend on float representation error). -/

/-- Round half to even, to an integer. -/
def roundHalfEven (q : ℚ) : ℤ :=
  let n := ⌊q⌋
  let f := q - n
  if f < 1 / 2 then n
  else if 1 / 2 < f then n + 1
  else if n % 2 = 0 then n else n + 1

/-- Python `round(q, ndigits)` on ℚ. -/
def pyRound (ndigits : ℕ) (q : ℚ) : ℚ :=
  (roundHalfEven (q * 10 ^ ndigits) : ℚ) / 10 ^ ndigits

lemma floor_le_roundHalfEven (q : ℚ) : ⌊q⌋ ≤ roundHalfEven q := by
  rw [roundHalfEven]
  split
  · exact le_refl _
  · split
    · omega
    · split
      · exact le_refl _
      · omega

lemma roundHalfEven_le_ceil (q : ℚ) : roundHalfEven q ≤ ⌈q⌉ := by
  have hfloor : (⌊q⌋ : ℚ) ≤ q := Int.floor_le q
  have hcl : ⌊q⌋ ≤ ⌈q⌉ := Int.floor_le_ceil q
  have hkey : ¬(q - ⌊q⌋ < 1 / 2) → ⌊q⌋ + 1 ≤ ⌈q⌉ := by
    intro h
    have hlt : (⌊q⌋ : ℚ) < q := by
      rcases lt_or_eq_of_le hfloor with h1 | h1
      · exact h1
      · exfalso
        apply h
        rw [← h1]
        norm_num
    have := Int.lt_ceil.mpr hlt
    omega
  rw [roundHalfEven]
  split
  · exact hcl
  · rename_i h
    split
    · exact hkey h
    · split
      · exact hcl
      · exact hkey h

lemma pyRound_nonneg (n : ℕ) (q : ℚ) (h : 0 ≤ q) : 0 ≤ pyRound n q := by
  rw [pyRound]
  apply div_nonneg _ (by positivity)
  have h1 : (0 : ℤ) ≤ ⌊q * 10 ^ n⌋ := Int.floor_nonneg.mpr (by positivity)
  have h2 := floor_le_roundHalfEven (q * 10 ^ n)
  exact_mod_cast le_trans h1 h2

lemma pyRound_le_one (n : ℕ) (q : ℚ) (h : q ≤ 1) : pyRound n q ≤ 1 := by
  rw [pyRound, div_le_one (by positivity)]
  have h1 : ⌈q * 10 ^ n⌉ ≤ (10 : ℤ) ^ n := by
    apply Int.ceil_le.mpr
    push_cast
    calc q * 10 ^ n ≤ 1 * 10 ^ n := by
          apply mul_le_mul_of_nonneg_right h (by positivity)
      _ = 10 ^ n := one_mul _
  have h2 := roundHalfEven_le_ceil (q * 10 ^ n)
  exact_mod_cast le_trans h2 h1

/-! ### Geometry model

A parsed geometry is either a single linestring or a multi-linestring
(shapely `LineString` / `MultiLineString`).  The geometric library
operations the scorer calls (`nearest_points` + `distance`, `length`) are
passed in as oracles. -/

/-- Resolved geometry: a single polyline or a set of polylines. -/
inductive Geom where
  | line (coords : List (ℚ × ℚ))
  | multi (parts : List (List (ℚ × ℚ)))
deriving DecidableEq

/-- Number of connected components (`len(matched_geom.geoms)` for a
MultiLineString, 1 for a LineString). -/
def numComps : Geom → ℕ
  | .line _ => 1
  | .multi ps => ps.length

/-! ### Geometry Resolver: `parse_geom_safe` (task6.py lines 31-47)

Source:
```
def parse_geom_safe(wkt_text):
    if not isinstance(wkt_text, str):
        return None
    s = wkt_text.strip().strip('"').strip("'")
    if not s or s.upper().endswith("EMPTY"):
        return None
    try:
        return wkt.loads(s)
    except Exception:
        s2 = re.sub(r',\s*\)', ')', s)
        try:
            return wkt.loads(s2)
        except Exception:
            return None
```
The library call `wkt.loads` is an oracle parameter (raising modelled as
`none`); a concrete executable model restricted to the LINESTRING grammar
is given below for the claim's concrete examples.  Python `\s` is
modelled by `Char.isWhitespace`. -/

/-- The cleanup `wkt_text.strip().strip('"').strip("'")`. -/
def cleanOf (s : String) : List Char :=
  Task5.stripBy (fun c => c == Char.ofNat 39)
    (Task5.stripBy (fun c => c == '"')
      (Task5.stripBy Char.isWhitespace s.data))

/-- The check `s.upper().endswith("EMPTY")`. -/
def endsWithEmpty (l : List Char) : Bool :=
  "EMPTY".data.isSuffixOf (l.map Char.toUpper)

/-- The repair pass `re.sub(r',\s*\)', ')', s)`: every comma followed by optional
whitespace and a closing parenthesis collapses to the parenthesis;
scanning resumes after each replacement (no rescan of produced text). -/
lemma length_tail_dropWhile_lt (p : Char → Bool) (rest : List Char) :
    ((rest.dropWhile p).tail).length < rest.length + 1 := by
  have h1 := Task5.length_dropWhile_le p rest
  have h2 : (rest.dropWhile p).tail.length = (rest.dropWhile p).length - 1 :=
    List.length_tail _
  omega

def fixCommaParen : List Char → List Char
  | [] => []
  | c :: rest =>
    if c = ',' then
      if (rest.dropWhile Char.isWhitespace).head? = some ')' then
        ')' :: fixCommaParen (rest.dropWhile Char.isWhitespace).tail
      else c :: fixCommaParen rest
    else c :: fixCommaParen rest
termination_by l => l.length
decreasing_by
  all_goals simp only [List.length_cons]
  all_goals first
    | exact length_tail_dropWhile_lt _ _
    | omega

/-- The resolver `parse_geom_safe`, parameterized by the `wkt.loads` library call. -/
def parse_geom_safe (loads : List Char → Option Geom) (w : Option String) :
    Option Geom :=
  match w with
  | none => none
  | some s =>
    let c := cleanOf s
    if c.isEmpty then none
    else if endsWithEmpty c then none
    else
      match loads c with
      | some g => some g
      | none => loads (fixCommaParen c)

/-! ### A concrete model of `shapely.wkt.loads` on the LINESTRING grammar

`wktLoads` accepts `LINESTRING EMPTY` and
`LINESTRING ( x y , x y , ... )` with at least two points, whitespace
tolerated, plain decimal numbers with optional sign and fraction; every
other text yields `none` (shapely raises).  This models the library only
as far as the inputs exercised by the claims require (other geometry
types are outside the model). -/

/-- Split at every character satisfying `p` (separators consumed). -/
def splitByPred (p : Char → Bool) : List Char → List (List Char)
  | [] => [[]]
  | x :: xs =>
    match splitByPred p xs with
    | [] => [[]]
    | h :: t => if p x then [] :: h :: t else (x :: h) :: t

/-- Whitespace-delimited words (empty chunks dropped). -/
def wordsOf (l : List Char) : List (List Char) :=
  (splitByPred Char.isWhitespace l).filter (fun w => !w.isEmpty)

/-- Decimal number, optional leading minus, optional fraction part. -/
def parseNum (l : List Char) : Option ℚ :=
  let signed : ℚ × List Char :=
    match l with
    | '-' :: r => (-1, r)
    | _ => (1, l)
  match splitByPred (fun c => c == '.') signed.2 with
  | [ip] =>
    if !ip.isEmpty && ip.all Char.isDigit then
      some (signed.1 * (Task5.digitsToNat ip : ℚ))
    else none
  | [ip, fp] =>
    if !ip.isEmpty && !fp.isEmpty && ip.all Char.isDigit && fp.all Char.isDigit then
      some (signed.1 * ((Task5.digitsToNat ip : ℚ)
        + (Task5.digitsToNat fp : ℚ) / 10 ^ fp.length))
    else none
  | _ => none

/-- One `x y` coordinate pair. -/
def parsePoint (part : List Char) : Option (ℚ × ℚ) :=
  match wordsOf part with
  | [a, b] =>
    match parseNum a, parseNum b with
    | some x, some y => some (x, y)
    | _, _ => none
  | _ => none

/-- All comma-separated coordinate pairs, failing if any fails. -/
def parsePoints : List (List Char) → Option (List (ℚ × ℚ))
  | [] => some []
  | p :: ps =>
    match parsePoint p, parsePoints ps with
    | some c, some cs => some (c :: cs)
    | _, _ => none

/-- Model of `shapely.wkt.loads` restricted to LINESTRING. -/
def wktLoads (l : List Char) : Option Geom :=
  let t := Task5.stripBy Char.isWhitespace l
  if t.take 10 = "LINESTRING".data then
    let rest := Task5.stripBy Char.isWhitespace (t.drop 10)
    if rest = "EMPTY".data then some (.line [])
    else
      match rest with
      | '(' :: more =>
        match more.reverse with
        | ')' :: innerRev =>
          (match parsePoints (splitByPred (fun c => c == ',') innerRev.reverse) with
            | some cs => if cs.length = 1 then none else some (.line cs)
            | none => none)
        | _ => none
      | _ => none
  else none

/-! ### Quality Scorer: `calculate_matching_quality` (task6.py lines 90-144)

The scorer walks the GPS fixes, computes a per-fix distance to the matched
geometry, and combines average distance, coverage and continuity into a
composite score.  The shapely calls are oracles:
`near p g` models `nearest_points(Point(p), g)[1]` followed by
`Point(p).distance(...)` (in degrees), with `none` for a raised exception;
`routeLen g` models `g.length` (in degrees). -/

/-- Per-trip quality metrics record (the dict returned by the scorer). -/
structure Metrics where
  avg_distance : ℚ
  max_distance : ℚ
  coverage : ℚ
  continuity : ℚ
  quality_score : ℚ
  num_gps_points : ℕ
  route_length : ℚ
deriving DecidableEq

/-- The sentinel worst-case record returned when there is no geometry or
no GPS fix. -/
def sentinelMetrics (n : ℕ) : Metrics :=
  { avg_distance := 999, max_distance := 999, coverage := 0,
    continuity := 0, quality_score := 0, num_gps_points := n,
    route_length := 0 }

/-- The per-fix distance list: `pt.distance(nearest) * 111000` on success,
`999` when the nearest-point computation raises. -/
def distancesOf (near : ℚ × ℚ → Geom → Option ℚ) (g : Geom)
    (gps : List (ℚ × ℚ)) : List ℚ :=
  gps.map (fun p =>
    match near p g with
    | some d => d * 111000
    | none => 999)

/-- The mean `np.mean(distances) if distances else 999`. -/
def avgOf (ds : List ℚ) : ℚ :=
  if ds.isEmpty then 999 else ds.sum / ds.length

/-- The maximum `np.max(distances) if distances else 999`. -/
def maxOf (ds : List ℚ) : ℚ :=
  match ds with
  | [] => 999
  | d :: rest => rest.foldl max d

/-- The coverage `sum(1 for d in distances if d < 50) / len(distances) if distances else 0`. -/
def coverageOf (ds : List ℚ) : ℚ :=
  if ds.isEmpty then 0
  else ((ds.filter (fun d => d < 50)).length : ℚ) / ds.length

/-- The continuity: 1, or `1.0 / len(matched_geom.geoms)` for a MultiLineString. -/
def continuityOf : Geom → ℚ
  | .line _ => 1
  | .multi ps => 1 / (ps.length : ℚ)

/-- The scorer `calculate_matching_quality(gps_points, matched_geom)`. -/
def calculate_matching_quality (near : ℚ × ℚ → Geom → Option ℚ)
    (routeLen : Geom → ℚ) (gps : List (ℚ × ℚ)) (mg : Option Geom) : Metrics :=
  match mg with
  | none => sentinelMetrics gps.length
  | some g =>
    if gps.isEmpty then sentinelMetrics gps.length
    else
      let ds := distancesOf near g gps
      let avg_dist := avgOf ds
      let distance_score := max 0 (1 - avg_dist / 100)
      let quality_score :=
        0.5 * distance_score + 0.4 * coverageOf ds + 0.1 * continuityOf g
      { avg_distance := pyRound 2 avg_dist,
        max_distance := pyRound 2 (maxOf ds),
        coverage := pyRound 3 (coverageOf ds),
        continuity := pyRound 3 (continuityOf g),
        quality_score := pyRound 3 quality_score,
        num_gps_points := gps.length,
        route_length := pyRound 1 (routeLen g * 111000) }

/-! ### Quality classification (task6.py lines 173-182)

Source:
```
q_score = metrics['quality_score']
if q_score >= 0.8:
    quality_class = "Excellent"
elif q_score >= threshold:
    quality_class = "Good"
elif q_score >= 0.4:
    quality_class = "Fair"
else:
    quality_class = "Poor"
```
`threshold` is the CLI `--threshold` option, default 0.6. -/

/-- The classification chain, with the configurable Good threshold. -/
def quality_class (threshold q_score : ℚ) : String :=
  if q_score ≥ 0.8 then "Excellent"
  else if q_score ≥ threshold then "Good"
  else if q_score ≥ 0.4 then "Fair"
  else "Poor"

end Task6

/-! ### Bridging lemmas used by the claim theorems -/

lemma stripBy_eq_nil (p : Char → Bool) (l : List Char)
    (h : Task5.stripBy p l = []) : ∀ c ∈ l, p c = true := by
  rw [Task5.stripBy, List.reverse_eq_nil_iff, List.dropWhile_eq_nil_iff] at h
  have hdrop : ∀ c ∈ l.dropWhile p, p c = true := by
    intro c hc
    exact h c (List.mem_reverse.mpr hc)
  intro c hc
  rw [← List.takeWhile_append_dropWhile p l, List.mem_append] at hc
  rcases hc with hc | hc
  · exact List.mem_takeWhile_imp hc
  · exact hdrop c hc

lemma whitespace_inert (c : Char) (h : c.isWhitespace = true) : Task5.Inert c := by
  have hcases : ((c = ' ' ∨ c = '\t') ∨ c = '\r') ∨ c = '\n' := by
    simpa [Char.isWhitespace] using h
  rcases hcases with ((h1 | h1) | h1) | h1 <;> subst h1 <;>
    exact ⟨by decide, by decide⟩

/-- The decoder is the raw scan of the text: the initial emptiness check
never changes the result. -/
lemma parse_edge_seq_eq_scan (s : String) :
    Task5.parse_edge_seq (some s) = Task5.scan s.data := by
  rw [Task5.parse_edge_seq]
  by_cases h : (Task5.stripBy Char.isWhitespace s.data).isEmpty
  · rw [if_pos h]
    symm
    exact Task5.scan_inert s.data
      (fun c hc => whitespace_inert c
        (stripBy_eq_nil Char.isWhitespace s.data (List.isEmpty_iff.mp h) c hc))
  · rw [if_neg h]

namespace Task6

lemma distancesOf_nonneg (near : ℚ × ℚ → Geom → Option ℚ) (g : Geom)
    (gps : List (ℚ × ℚ)) (hn : ∀ p d, near p g = some d → 0 ≤ d) :
    ∀ x ∈ distancesOf near g gps, 0 ≤ x := by
  intro x hx
  obtain ⟨p, _, hp⟩ := List.mem_map.mp hx
  rcases hd : near p g with _ | d
  · rw [hd] at hp
    simp only at hp
    rw [← hp]
    norm_num
  · rw [hd] at hp
    simp only at hp
    rw [← hp]
    have := hn p d hd
    positivity

lemma avgOf_nonneg (ds : List ℚ) (h : ∀ x ∈ ds, 0 ≤ x) : 0 ≤ avgOf ds := by
  rw [avgOf]
  split
  · norm_num
  · exact div_nonneg (List.sum_nonneg h) (by positivity)

lemma coverageOf_bounds (ds : List ℚ) :
    0 ≤ coverageOf ds ∧ coverageOf ds ≤ 1 := by
  rw [coverageOf]
  split
  · norm_num
  · rename_i hne
    have hlen : 0 < (ds.length : ℚ) := by
      have : ds ≠ [] := List.isEmpty_eq_false.mp (by simpa using hne)
      have := List.length_pos.mpr this
      exact_mod_cast this
    constructor
    · positivity
    · rw [div_le_one hlen]
      exact_mod_cast List.length_filter_le _ ds

lemma continuityOf_bounds (g : Geom) :
    0 ≤ continuityOf g ∧ continuityOf g ≤ 1 := by
  cases g with
  | line coords => norm_num [continuityOf]
  | multi ps =>
    rw [continuityOf]
    rcases Nat.eq_zero_or_pos ps.length with h | h
    · rw [h]
      norm_num
    · have hpos : 0 < (ps.length : ℚ) := by exact_mod_cast h
      constructor
      · positivity
      · rw [div_le_one hpos]
        exact_mod_cast h

lemma continuityOf_pos (g : Geom) (h : 1 ≤ numComps g) : 0 < continuityOf g := by
  cases g with
  | line coords => norm_num [continuityOf]
  | multi ps =>
    rw [continuityOf]
    rw [numComps] at h
    have hpos : 0 < (ps.length : ℚ) := by exact_mod_cast h
    positivity

lemma distance_score_bounds (avg : ℚ) (h : 0 ≤ avg) :
    0 ≤ max 0 (1 - avg / 100) ∧ max 0 (1 - avg / 100) ≤ 1 := by
  constructor
  · exact le_max_left 0 _
  · rw [max_le_iff]
    constructor
    · norm_num
    · have : 0 ≤ avg / 100 := by positivity
      linarith

lemma raw_score_bounds (d c k : ℚ) (hd0 : 0 ≤ d) (hd1 : d ≤ 1)
    (hc0 : 0 ≤ c) (hc1 : c ≤ 1) (hk0 : 0 ≤ k) (hk1 : k ≤ 1) :
    0 ≤ 0.5 * d + 0.4 * c + 0.1 * k ∧ 0.5 * d + 0.4 * c + 0.1 * k ≤ 1 := by
  constructor <;> nlinarith

end Task6

/-! ## Claim theorems -/

unseal Task5.scan Task5.natToDigits Task6.fixCommaParen

instance instDecidableInert (c : Char) : Decidable (Task5.Inert c) := by
  unfold Task5.Inert
  infer_instance

/-- C2: for any edge id, the frequency accumulated over all matched rows
equals the exact total number of occurrences of that id across all trips'
decoded paths (repeats within one trip each counted), independent of
whether time attribution was skipped for any trip. -/
theorem claim2_frequency_exact (id2len id2time : ℤ → Option ℚ)
    (rows : List Task5.Row) (x : ℤ) :
    (Task5.runTrips id2len id2time rows).freq x
      = (rows.map (fun r => (Task5.parse_edge_seq (some r.field)).count x)).sum := by
  rw [Task5.runTrips, Task5.foldl_processTrip_freq]
  simp [Task5.initStats]

/-- C4: the classification tests thresholds in fixed descending order
(0.8, then the configurable Good threshold, then 0.4), boundary values
resolve upward, and the four classes cover every score exactly once. -/
theorem claim4_classification (t q : ℚ) :
    (Task6.quality_class t q = "Excellent" ↔ 0.8 ≤ q)
    ∧ (Task6.quality_class t q = "Good" ↔ q < 0.8 ∧ t ≤ q)
    ∧ (Task6.quality_class t q = "Fair" ↔ q < 0.8 ∧ q < t ∧ 0.4 ≤ q)
    ∧ (Task6.quality_class t q = "Poor" ↔ q < 0.8 ∧ q < t ∧ q < 0.4)
    ∧ (Task6.quality_class t q = "Excellent" ∨ Task6.quality_class t q = "Good"
        ∨ Task6.quality_class t q = "Fair" ∨ Task6.quality_class t q = "Poor") := by
  rcases le_or_lt 0.8 q with h1 | h1
  · rw [Task6.quality_class, if_pos (show q ≥ 0.8 from h1)]
    simp only [ge_iff_le]
    refine ⟨by simp [h1], ?_, ?_, ?_, by simp⟩
    · exact ⟨fun h => absurd h (by decide), fun h => absurd h1 (not_le.mpr h.1)⟩
    · exact ⟨fun h => absurd h (by decide), fun h => absurd h1 (not_le.mpr h.1)⟩
    · exact ⟨fun h => absurd h (by decide), fun h => absurd h1 (not_le.mpr h.1)⟩
  · rcases le_or_lt t q with h2 | h2
    · rw [Task6.quality_class, if_neg (show ¬q ≥ 0.8 from not_le.mpr h1),
        if_pos (show q ≥ t from h2)]
      refine ⟨?_, by simp [h1, h2], ?_, ?_, by simp⟩
      · exact ⟨fun h => absurd h (by decide), fun h => absurd h1 (not_lt.mpr h)⟩
      · exact ⟨fun h => absurd h (by decide),
          fun h => absurd h2 (not_le.mpr h.2.1)⟩
      · exact ⟨fun h => absurd h (by decide),
          fun h => absurd h2 (not_le.mpr h.2.1)⟩
    · rcases le_or_lt 0.4 q with h3 | h3
      · rw [Task6.quality_class, if_neg (show ¬q ≥ 0.8 from not_le.mpr h1),
          if_neg (show ¬q ≥ t from not_le.mpr h2), if_pos (show q ≥ 0.4 from h3)]
        refine ⟨?_, ?_, by simp [h1, h2, h3], ?_, by simp⟩
        · exact ⟨fun h => absurd h (by decide), fun h => absurd h1 (not_lt.mpr h)⟩
        · exact ⟨fun h => absurd h (by decide), fun h => absurd h.2 (not_le.mpr h2)⟩
        · exact ⟨fun h => absurd h (by decide), fun h => absurd h3 (not_le.mpr h.2.2)⟩
      · rw [Task6.quality_class, if_neg (show ¬q ≥ 0.8 from not_le.mpr h1),
          if_neg (show ¬q ≥ t from not_le.mpr h2), if_neg (show ¬q ≥ 0.4 from not_le.mpr h3)]
        refine ⟨?_, ?_, ?_, by simp [h1, h2, h3], by simp⟩
        · exact ⟨fun h => absurd h (by decide), fun h => absurd h1 (not_lt.mpr h)⟩
        · exact ⟨fun h => absurd h (by decide), fun h => absurd h.2 (not_le.mpr h2)⟩
        · exact ⟨fun h => absurd h (by decide), fun h => absurd h.2.2 (not_le.mpr h3)⟩

/-- C8: with no geometry or no GPS fixes, the scorer returns (never
fails) the sentinel worst-case record: avg = max = 999, coverage = 0,
continuity = 0, quality score = 0. -/
theorem claim8_sentinel (near : ℚ × ℚ → Task6.Geom → Option ℚ)
    (routeLen : Task6.Geom → ℚ) :
    (∀ gps, Task6.calculate_matching_quality near routeLen gps none
        = Task6.sentinelMetrics gps.length)
    ∧ (∀ mg, Task6.calculate_matching_quality near routeLen [] mg
        = Task6.sentinelMetrics 0)
    ∧ (∀ n, Task6.sentinelMetrics n = ⟨999, 999, 0, 0, 0, n, 0⟩) := by
  refine ⟨fun gps => rfl, fun mg => ?_, fun n => rfl⟩
  cases mg with
  | none => rfl
  | some g => rfl

/-- C9: an edge id absent from the Network Index yields the sentinel
length 0, is excluded from time attribution (`time_sum`/`time_count`
untouched), but still counts toward frequency; lookups are total, never
raising. -/
theorem claim9_missing_edge (id2len id2time : ℤ → Option ℚ) (st : Task5.Stats)
    (r : Task5.Row) (e : ℤ) (he : id2len e = none) :
    Task5.lengthsOf id2len [e] = [0]
    ∧ (Task5.processTrip id2len id2time st r).freq e
        = st.freq e + (Task5.parse_edge_seq (some r.field)).count e
    ∧ (Task5.processTrip id2len id2time st r).time_sum e = st.time_sum e
    ∧ (Task5.processTrip id2len id2time st r).time_count e = st.time_count e :=
  ⟨by simp [Task5.lengthsOf, he],
   Task5.processTrip_freq id2len id2time st r e,
   (Task5.processTrip_missing_time id2len id2time st r e he).1,
   (Task5.processTrip_missing_time id2len id2time st r e he).2⟩

/-- Witness for C9 at a concrete input: edge 5 is missing from the index,
appears twice in the path, duration is defined; frequency gains 2 while
`time_sum`/`time_count` stay 0. -/
theorem claim9_missing_edge_witness :
    (Task5.processTrip (fun _ => none) (fun _ => some 1) Task5.initStats
        ⟨some 0, "[5, 5]"⟩).freq 5 = 2
    ∧ (Task5.processTrip (fun _ => none) (fun _ => some 1) Task5.initStats
        ⟨some 0, "[5, 5]"⟩).time_sum 5 = 0
    ∧ (Task5.processTrip (fun _ => none) (fun _ => some 1) Task5.initStats
        ⟨some 0, "[5, 5]"⟩).time_count 5 = 0 := by
  have h := claim9_missing_edge (fun _ => none) (fun _ => some 1)
    Task5.initStats ⟨some 0, "[5, 5]"⟩ 5 rfl
  refine ⟨?_, h.2.2.1, h.2.2.2⟩
  rw [h.2.1]
  decide

/-- C6: the decoder maps any text to the left-to-right integer decoding of
all maximal (optionally signed) digit runs: missing/empty fields give
`[]`, the bracketed example round-trips, the whole decoder is the raw
scan, and numbers rendered with arbitrary digit-free, minus-free
lead/separator/trail decode to exactly themselves in order. -/
theorem claim6_decoder :
    Task5.parse_edge_seq none = []
    ∧ Task5.parse_edge_seq (some "") = []
    ∧ Task5.parse_edge_seq (some "   ") = []
    ∧ (∀ s : String, Task5.parse_edge_seq (some s) = Task5.scan s.data)
    ∧ Task5.parse_edge_seq (some "[12, 7, 7, 3]") = [12, 7, 7, 3]
    ∧ (∀ (lead sep trail : List Char) (ns : List ℕ),
        (∀ c ∈ lead, Task5.Inert c) → (∀ c ∈ sep, Task5.Inert c) →
        sep ≠ [] → (∀ c ∈ trail, Task5.Inert c) →
        Task5.scan (Task5.render lead sep trail ns)
          = ns.map (fun n => (n : ℤ))) :=
  ⟨rfl, by decide, by decide, parse_edge_seq_eq_scan, by decide,
   fun lead sep trail ns h1 h2 h3 h4 =>
     Task5.scan_render lead sep trail ns h1 h2 h3 h4⟩

/-- Witness for C6 at a concrete input: the numbers 12, 7, 7, 3 rendered
with an exotic convention decode back to themselves. -/
theorem claim6_decoder_witness :
    Task5.scan (Task5.render "< ".data "; ".data " >".data [12, 7, 7, 3])
      = [12, 7, 7, 3] := by
  have h := claim6_decoder.2.2.2.2.2 "< ".data "; ".data " >".data
    [12, 7, 7, 3] (by decide) (by decide) (by decide) (by decide)
  rw [h]
  decide

/-- C1: for a trip with a defined duration `T` and looked-up edge lengths
of positive sum (lengths are geometric, hence nonnegative), the
attribution step adds `dt = T * (l / Σl)` to `time_sum` for every path
occurrence with positive length, and the total attributed over the
trip's edges is exactly `T`. -/
theorem claim1_time_attribution (id2len id2time : ℤ → Option ℚ)
    (st : Task5.Stats) (r : Task5.Row) (T : ℚ)
    (hT : r.rid.bind id2time = some T)
    (hnn : ∀ l ∈ Task5.lengthsOf id2len (Task5.parse_edge_seq (some r.field)), 0 ≤ l)
    (hpos : 0 < (Task5.lengthsOf id2len (Task5.parse_edge_seq (some r.field))).sum) :
    (∀ x, (Task5.processTrip id2len id2time st r).time_sum x
        = st.time_sum x
          + Task5.attributedTo T
              (Task5.lengthsOf id2len (Task5.parse_edge_seq (some r.field))).sum
              ((Task5.parse_edge_seq (some r.field)).zip
                (Task5.lengthsOf id2len (Task5.parse_edge_seq (some r.field)))) x)
    ∧ ∑ x ∈ (Task5.parse_edge_seq (some r.field)).toFinset,
        ((Task5.processTrip id2len id2time st r).time_sum x - st.time_sum x) = T :=
  ⟨Task5.processTrip_time_sum id2len id2time st r T hT hpos,
   Task5.trip_attribution_sum id2len id2time st r T hT hnn hpos⟩

/-- Witness for C1 at a concrete input: a 30-second trip over edges of
lengths 100 and 300 attributes 7.5 s and 22.5 s; the trip total is 30. -/
theorem claim1_time_attribution_witness :
    (Task5.processTrip
        (fun e => if e = 1 then some 100 else if e = 2 then some 300 else none)
        (fun i => if i = 0 then some 30 else none)
        Task5.initStats ⟨some 0, "[1, 2]"⟩).time_sum 1 = 15 / 2
    ∧ (Task5.processTrip
        (fun e => if e = 1 then some 100 else if e = 2 then some 300 else none)
        (fun i => if i = 0 then some 30 else none)
        Task5.initStats ⟨some 0, "[1, 2]"⟩).time_sum 2 = 45 / 2
    ∧ ∑ x ∈ (Task5.parse_edge_seq (some "[1, 2]")).toFinset,
        ((Task5.processTrip
            (fun e => if e = 1 then some 100 else if e = 2 then some 300 else none)
            (fun i => if i = 0 then some 30 else none)
            Task5.initStats ⟨some 0, "[1, 2]"⟩).time_sum x
          - Task5.initStats.time_sum x) = 30 := by
  have h := claim1_time_attribution
    (fun e => if e = 1 then some 100 else if e = 2 then some 300 else none)
    (fun i => if i = 0 then some 30 else none)
    Task5.initStats ⟨some 0, "[1, 2]"⟩ 30 (by decide) (by decide) (by decide)
  refine ⟨?_, ?_, h.2⟩
  · rw [h.1 1]
    decide
  · rw [h.1 2]
    decide

/-- C10: if the nearest-point distance computation fails for one fix, that
fix's distance is recorded as the sentinel 999 while every other fix is
still processed (the distance list keeps one entry per fix) and the
scorer's aggregates are computed over the full list. -/
theorem claim10_per_fix_failure (near : ℚ × ℚ → Task6.Geom → Option ℚ)
    (routeLen : Task6.Geom → ℚ) (g : Task6.Geom) (gps : List (ℚ × ℚ))
    (i : ℕ) (hi : i < gps.length)
    (hf : near (gps.get ⟨i, hi⟩) g = none) :
    (Task6.distancesOf near g gps).length = gps.length
    ∧ (Task6.distancesOf near g gps).getD i 0 = 999
    ∧ (gps ≠ [] →
        (Task6.calculate_matching_quality near routeLen gps (some g)).avg_distance
          = Task6.pyRound 2 (Task6.avgOf (Task6.distancesOf near g gps))
        ∧ (Task6.calculate_matching_quality near routeLen gps (some g)).num_gps_points
          = gps.length) := by
  refine ⟨by simp [Task6.distancesOf], ?_, ?_⟩
  · have hf2 : near gps[i] g = none := hf
    rw [Task6.distancesOf, List.getD_eq_getElem?_getD, List.getElem?_map,
      List.getElem?_eq_getElem hi]
    simp [hf2]
  · intro hne
    rw [Task6.calculate_matching_quality]
    rw [if_neg (by simpa using hne)]
    exact ⟨rfl, rfl⟩

/-- Witness for C10 at a concrete input: the oracle fails on the first of
two fixes; the distance list is [999, 111000] and both fixes count. -/
theorem claim10_per_fix_failure_witness :
    (Task6.distancesOf
        (fun p _ => if p.1 = 0 then none else some 1)
        (Task6.Geom.line []) [(0, 0), (3, 4)]).length = 2
    ∧ (Task6.distancesOf
        (fun p _ => if p.1 = 0 then none else some 1)
        (Task6.Geom.line []) [(0, 0), (3, 4)]).getD 0 0 = 999
    ∧ (Task6.calculate_matching_quality
        (fun p _ => if p.1 = 0 then none else some 1)
        (fun _ => 0) [(0, 0), (3, 4)] (some (Task6.Geom.line []))).num_gps_points
        = 2 := by
  have h := claim10_per_fix_failure
    (fun p _ => if p.1 = 0 then none else some 1)
    (fun _ => 0) (Task6.Geom.line []) [(0, 0), (3, 4)] 0 (by decide) (by decide)
  exact ⟨h.1, h.2.1, (h.2.2 (by decide)).2⟩

/-- C5: the quality score is always in [0, 1] (the per-fix distance oracle
returns nonnegative geometric distances), and in the non-sentinel case it
is exactly `0.5 * max 0 (1 - avg/100) + 0.4 * coverage + 0.1 * continuity`
(emitted rounded to 3 decimals), with coverage in [0, 1] and continuity
in (0, 1] for a nonempty geometry. -/
theorem claim5_score_bounds (near : ℚ × ℚ → Task6.Geom → Option ℚ)
    (routeLen : Task6.Geom → ℚ) (gps : List (ℚ × ℚ)) (mg : Option Task6.Geom)
    (hnn : ∀ p g d, near p g = some d → 0 ≤ d) :
    (0 ≤ (Task6.calculate_matching_quality near routeLen gps mg).quality_score
      ∧ (Task6.calculate_matching_quality near routeLen gps mg).quality_score ≤ 1)
    ∧ (∀ g, mg = some g → gps ≠ [] →
        (Task6.calculate_matching_quality near routeLen gps mg).quality_score
          = Task6.pyRound 3
              (0.5 * max 0 (1 - Task6.avgOf (Task6.distancesOf near g gps) / 100)
                + 0.4 * Task6.coverageOf (Task6.distancesOf near g gps)
                + 0.1 * Task6.continuityOf g)
        ∧ 0 ≤ Task6.coverageOf (Task6.distancesOf near g gps)
        ∧ Task6.coverageOf (Task6.distancesOf near g gps) ≤ 1
        ∧ (1 ≤ Task6.numComps g → 0 < Task6.continuityOf g)
        ∧ Task6.continuityOf g ≤ 1) := by
  constructor
  · cases mg with
    | none =>
      constructor <;>
        norm_num [Task6.calculate_matching_quality, Task6.sentinelMetrics]
    | some g =>
      by_cases hemp : gps.isEmpty
      · constructor <;>
          norm_num [Task6.calculate_matching_quality, hemp,
            Task6.sentinelMetrics]
      · have hds : ∀ x ∈ Task6.distancesOf near g gps, 0 ≤ x :=
          Task6.distancesOf_nonneg near g gps (fun p d h => hnn p g d h)
        have havg := Task6.avgOf_nonneg _ hds
        have hdsb := Task6.distance_score_bounds _ havg
        have hcov := Task6.coverageOf_bounds (Task6.distancesOf near g gps)
        have hcont := Task6.continuityOf_bounds g
        have hraw := Task6.raw_score_bounds _ _ _ hdsb.1 hdsb.2 hcov.1 hcov.2
          hcont.1 hcont.2
        simp only [Task6.calculate_matching_quality, if_neg hemp]
        exact ⟨Task6.pyRound_nonneg 3 _ hraw.1, Task6.pyRound_le_one 3 _ hraw.2⟩
  · intro g hg hne
    subst hg
    simp only [Task6.calculate_matching_quality,
      if_neg (show ¬gps.isEmpty = true by simpa using hne)]
    exact ⟨by trivial, (Task6.coverageOf_bounds _).1, (Task6.coverageOf_bounds _).2,
      Task6.continuityOf_pos g, (Task6.continuityOf_bounds g).2⟩

/-- Witness for C5 at a concrete input: one fix at zero distance from a
one-component geometry gives coverage 1, continuity 1, quality score 1,
and the bounds hold. -/
theorem claim5_score_bounds_witness :
    (0 ≤ (Task6.calculate_matching_quality (fun _ _ => some 0) (fun _ => 0)
        [(0, 0)] (some (Task6.Geom.line []))).quality_score
      ∧ (Task6.calculate_matching_quality (fun _ _ => some 0) (fun _ => 0)
        [(0, 0)] (some (Task6.Geom.line []))).quality_score ≤ 1)
    ∧ (Task6.calculate_matching_quality (fun _ _ => some 0) (fun _ => 0)
        [(0, 0)] (some (Task6.Geom.line []))).quality_score
        = Task6.pyRound 3
            (0.5 * max 0 (1 - Task6.avgOf (Task6.distancesOf
                (fun _ _ => some 0) (Task6.Geom.line []) [(0, 0)]) / 100)
              + 0.4 * Task6.coverageOf (Task6.distancesOf
                  (fun _ _ => some 0) (Task6.Geom.line []) [(0, 0)])
              + 0.1 * Task6.continuityOf (Task6.Geom.line [])) := by
  have h := claim5_score_bounds (fun _ _ => some 0) (fun _ => 0)
    [(0, 0)] (some (Task6.Geom.line []))
    (fun p g d hd => by cases Option.some_inj.mp hd; norm_num)
  exact ⟨h.1, (h.2 (Task6.Geom.line []) rfl (by decide)).1⟩

/-- C7: the geometry resolver is total (`none` for a non-string), tries
the strict parse first, applies exactly one trailing-comma repair pass on
failure and retries, maps explicitly EMPTY geometry text to no geometry;
concretely, the malformed text parses after repair and `LINESTRING EMPTY`
resolves to no geometry. -/
theorem claim7_geometry_resolver :
    (∀ loads, Task6.parse_geom_safe loads none = none)
    ∧ (∀ (loads : List Char → Option Task6.Geom) (s : String) g,
        Task6.cleanOf s ≠ [] → Task6.endsWithEmpty (Task6.cleanOf s) = false →
        loads (Task6.cleanOf s) = some g →
        Task6.parse_geom_safe loads (some s) = some g)
    ∧ (∀ (loads : List Char → Option Task6.Geom) (s : String),
        Task6.cleanOf s ≠ [] → Task6.endsWithEmpty (Task6.cleanOf s) = false →
        loads (Task6.cleanOf s) = none →
        Task6.parse_geom_safe loads (some s)
          = loads (Task6.fixCommaParen (Task6.cleanOf s)))
    ∧ (∀ (loads : List Char → Option Task6.Geom) (s : String),
        Task6.endsWithEmpty (Task6.cleanOf s) = true →
        Task6.parse_geom_safe loads (some s) = none)
    ∧ Task6.wktLoads "LINESTRING(0 0, 1 1, )".data = none
    ∧ Task6.fixCommaParen "LINESTRING(0 0, 1 1, )".data
        = "LINESTRING(0 0, 1 1)".data
    ∧ Task6.wktLoads "LINESTRING(0 0, 1 1)".data
        = some (Task6.Geom.line [(0, 0), (1, 1)])
    ∧ Task6.parse_geom_safe Task6.wktLoads (some "LINESTRING(0 0, 1 1, )")
        = some (Task6.Geom.line [(0, 0), (1, 1)])
    ∧ Task6.parse_geom_safe Task6.wktLoads (some "LINESTRING EMPTY") = none := by
  refine ⟨fun loads => rfl, ?_, ?_, ?_, by decide, by decide, by decide,
    by decide, by decide⟩
  · intro loads s g hne hemp hload
    simp only [Task6.parse_geom_safe,
      if_neg (show ¬(Task6.cleanOf s).isEmpty = true by
        simpa using hne),
      hemp, Bool.false_eq_true, if_false, hload]
  · intro loads s hne hemp hload
    simp only [Task6.parse_geom_safe,
      if_neg (show ¬(Task6.cleanOf s).isEmpty = true by
        simpa using hne),
      hemp, Bool.false_eq_true, if_false, hload]
  · intro loads s hemp
    by_cases hne : Task6.cleanOf s = []
    · simp only [Task6.parse_geom_safe, hne]
      rfl
    · simp only [Task6.parse_geom_safe,
        if_neg (show ¬(Task6.cleanOf s).isEmpty = true by
          simpa using hne),
        hemp, if_true]

/-- Witness for C7 at a concrete input: a well-formed LINESTRING is
returned by the strict first parse. -/
theorem claim7_geometry_resolver_witness :
    Task6.parse_geom_safe Task6.wktLoads (some "LINESTRING(2 3, 4 5)")
      = some (Task6.Geom.line [(2, 3), (4, 5)]) :=
  claim7_geometry_resolver.2.1 Task6.wktLoads "LINESTRING(2 3, 4 5)"
    (Task6.Geom.line [(2, 3), (4, 5)]) (by decide) (by decide) (by decide)

/-- Witness for C2 at a concrete input: edge 1 appears three times in one
trip and once in another (with no duration data), total frequency 4. -/
theorem claim2_frequency_exact_witness :
    (Task5.runTrips (fun _ => none) (fun _ => none)
      [⟨none, "[1, 2, 1]"⟩, ⟨none, "1;1"⟩]).freq 1 = 4 := by
  rw [claim2_frequency_exact]
  decide

/-- Witness for C4 at concrete inputs: the boundary values resolve to the
higher class, with the default Good threshold 0.6. -/
theorem claim4_classification_witness :
    Task6.quality_class 0.6 0.8 = "Excellent"
    ∧ Task6.quality_class 0.6 0.6 = "Good"
    ∧ Task6.quality_class 0.6 0.4 = "Fair"
    ∧ Task6.quality_class 0.6 0.39 = "Poor" :=
  ⟨(claim4_classification 0.6 0.8).1.mpr (by norm_num),
   (claim4_classification 0.6 0.6).2.1.mpr (by norm_num),
   (claim4_classification 0.6 0.4).2.2.1.mpr (by norm_num),
   (claim4_classification 0.6 0.39).2.2.2.1.mpr (by norm_num)⟩

/-- Witness for C8 at a concrete input. -/
theorem claim8_sentinel_witness :
    Task6.calculate_matching_quality (fun _ _ => none) (fun _ => 0)
      [(1, 1)] none = Task6.sentinelMetrics 1 :=
  (claim8_sentinel (fun _ _ => none) (fun _ => 0)).1 [(1, 1)]
